import Mathlib

/-!
Shallow embedding of the algorithmic core of TheBeat (src/utils.py and
src/stock_matcher.py): the trading-calendar resolver, the collection-window
calculator, the longest-match-first entity matcher and the registry
loader/cache, together with proofs of the specified properties.
-/

namespace TheBeat

/-! ## Calendar model (src/utils.py)

Days are integer day numbers with day 0 a Monday, so `weekday d = d % 7`
agrees with Python `datetime.weekday()` (0 = Monday … 6 = Sunday; `%` on `Int`
is `emod`, which is always nonnegative for the positive modulus 7, exactly like
Python's `%`).  An instant is a calendar day plus minutes since midnight,
mirroring `datetime` at minute granularity; this granularity is exact for
`utils.py` because every comparison there is against a whole-minute instant
(a day at 16:00:00.000000) or reads the `hour` attribute. -/

/-- Weekday index of a day number: 0 = Monday … 5 = Saturday, 6 = Sunday. -/
def weekday (d : Int) : Int := d % 7

/-- A `datetime` value: calendar day plus minutes since midnight. -/
structure Instant where
  day : Int
  mins : Nat
deriving DecidableEq

/-- Total minutes of an instant; `datetime` comparison is comparison of
`toMin` (for canonical instants, `mins < 1440`). -/
def Instant.toMin (t : Instant) : Int := t.day * 1440 + t.mins

/-- The `datetime.hour` attribute. -/
def Instant.hour (t : Instant) : Nat := t.mins / 60

/-- Outcome of one `stock.get_index_ohlcv(d, d, "1001")` probe inside
`get_last_trading_day` (src/utils.py lines 41-59): the probe returned
nonempty data, returned empty/absent data, or raised an exception. -/
inductive ProbeResult where
  | data
  | noData
  | error
deriving DecidableEq

/-- The `for i in range(10)` probe loop of `get_last_trading_day`
(src/utils.py lines 34-59): candidate day `base - i`, Saturdays/Sundays
skipped before probing, and the first candidate whose probe returns nonempty
data is returned; empty data and exceptions both fall through to the next
iteration.  `i` is the next offset to try and `r` the remaining iterations. -/
def probeFrom (probe : Int → ProbeResult) (base : Int) : Nat → Nat → Option Int
  | _, 0 => none
  | i, r + 1 =>
      if 5 ≤ weekday (base - i) then probeFrom probe base (i + 1) r
      else
        match probe (base - i) with
        | .data => some (base - i)
        | _ => probeFrom probe base (i + 1) r

/-- The fallback `while True` loop of `get_last_trading_day` (src/utils.py
lines 68-86): step back one day while the weekday is Saturday or Sunday and
return the first weekday reached.  The loop terminates because each step
strictly decreases the weekday index from 5 or 6. -/
def fallbackDay (d : Int) : Int :=
  if h : 5 ≤ weekday d then fallbackDay (d - 1) else d
termination_by (weekday d).toNat
decreasing_by
  simp only [weekday] at h
  simp only [weekday]
  omega

/-- `get_last_trading_day` (src/utils.py lines 18-86) at day granularity: the
function receives a `datetime` but only ever uses its date and weekday, so its
faithful embedding takes the base day number.  The external `pykrx` probe is a
parameter.  `base_date=None` (current time) and an explicit `base_date` both
reach this code with some concrete base day, covered by the universally
quantified `base`. -/
def get_last_trading_day (probe : Int → ProbeResult) (base : Int) : Int :=
  match probeFrom probe base 0 10 with
  | some d => d
  | none => fallbackDay base

/-- The probe anchor of `get_data_collection_timerange` (src/utils.py lines
114-116): `search_date = end - 1 day` when `end.hour < 9`, else `end`;
`get_last_trading_day` only uses its date, which is `end.day - 1`
respectively `end.day`. -/
def searchDay (base : Instant) : Int :=
  if base.hour < 9 then base.day - 1 else base.day

/-- The resolved trading day of `get_data_collection_timerange` after the
future-date adjustment (src/utils.py lines 119-124): parse the resolved day at
midnight and move one day back if that midnight lies after `end`. -/
def resolvedDay (probe : Int → ProbeResult) (base : Instant) : Int :=
  let ltd0 := get_last_trading_day probe (searchDay base)
  if base.toMin < ltd0 * 1440 then ltd0 - 1 else ltd0

/-- `get_data_collection_timerange` (src/utils.py lines 89-144).  `start0` is
the resolved trading day at 16:00 (960 minutes).  If `start0 > end`, the code
does `start -= 1 day`, sets `safe_search_date = start - 1 day` (so its date is
`resolvedDay - 2`, the time-of-day 16:00 being dropped by
`get_last_trading_day`), re-resolves once from there and takes that day at
16:00 as the final start. -/
def get_data_collection_timerange (probe : Int → ProbeResult) (base : Instant) :
    Instant × Instant :=
  let start0 : Instant := ⟨resolvedDay probe base, 960⟩
  if base.toMin < start0.toMin then
    let start1 : Instant := ⟨start0.day - 1, start0.mins⟩
    let safeSearch : Instant := ⟨start1.day - 1, start1.mins⟩
    (⟨get_last_trading_day probe safeSearch.day, 960⟩, base)
  else
    (start0, base)

/-! ## Entity matcher model (src/stock_matcher.py)

Texts and names are lists of Unicode code points (`List Char`), matching
Python string indexing.  The covered-position set `matched_positions` is a
`Finset ℕ`. -/

/-- One registry entry, the dict `{'name': …, 'ticker': …, 'market': …}`. -/
structure StockInfo where
  name : List Char
  ticker : String
  market : String
deriving DecidableEq

/-- Scanning loop of Python `text.find(pat, start)`, with an explicit fuel
that makes the recursion structural; the wrapper `findFrom` supplies enough
fuel that the fuel-exhausted branch coincides with the no-occurrence answer. -/
def findFromAux (text pat : List Char) : Nat → Nat → Option Nat
  | _, 0 => none
  | start, fuel + 1 =>
      if text.length < start + pat.length then none
      else if pat.isPrefixOf (text.drop start) then some start
      else findFromAux text pat (start + 1) fuel

/-- Python `text.find(pat, start)`: the least position `p ≥ start` at which
`pat` occurs in `text`, or `none` (Python's `-1`) if there is no such
position.  Matches CPython behaviour for the empty pattern as well
(`"abc".find("", 3) = 3`, `"abc".find("", 4) = -1`). -/
def findFrom (text pat : List Char) (start : Nat) : Option Nat :=
  findFromAux text pat start (text.length + 1 - start)

/-- An accepted occurrence: the registry entry plus its half-open character
span `[pos, stop)` in the text.  The Python code records the entry in
`matched_stocks` and the span inside `matched_positions`; the span is made
explicit here so that span disjointness can be stated. -/
structure TBMatch where
  info : StockInfo
  pos : Nat
  stop : Nat
deriving DecidableEq

/-- The character span of a match as a finite set of positions, Python's
`set(range(pos, end_pos))`. -/
def spanOf (m : TBMatch) : Finset ℕ := Finset.Ico m.pos m.stop

/-- The inner `while True` loop of `extract_stock_names` (src/stock_matcher.py
lines 116-132) for one registry entry, with an explicit fuel making the
recursion structural: repeatedly `text.find` the name from `startPos`; stop on
no occurrence; otherwise accept the occurrence exactly when its span does not
intersect the already-covered positions (then record the match and cover its
span), and continue searching from `pos + 1`.  The wrapper `scanName` supplies
enough fuel that the fuel-exhausted branch is never the answer on a position
from which an occurrence can still be found. -/
def scanNameAux (text : List Char) (info : StockInfo) :
    Nat → Finset ℕ → List TBMatch → Nat → Finset ℕ × List TBMatch
  | 0, covered, acc, _ => (covered, acc)
  | fuel + 1, covered, acc, startPos =>
      match findFrom text info.name startPos with
      | none => (covered, acc)
      | some pos =>
          let stopPos := pos + info.name.length
          let rng := Finset.Ico pos stopPos
          if (rng ∩ covered).Nonempty then
            scanNameAux text info fuel covered acc (pos + 1)
          else
            scanNameAux text info fuel (covered ∪ rng)
              (acc ++ [⟨info, pos, stopPos⟩]) (pos + 1)

/-- One registry entry's scan, fuel instantiated so that the loop always ends
by exhausting the occurrences, never the fuel. -/
def scanName (text : List Char) (info : StockInfo) (covered : Finset ℕ)
    (acc : List TBMatch) (startPos : Nat) : Finset ℕ × List TBMatch :=
  scanNameAux text info (text.length + 1 - startPos) covered acc startPos

/-- One step of Python's stable `sorted(stock_list, key=len(name),
reverse=True)` (src/stock_matcher.py line 107), as stable insertion: `x` is
placed before the first element of strictly smaller name length, hence after
every earlier element of greater-or-equal length, which is exactly the stable
descending order that `sorted` produces. -/
def insertByLen (x : StockInfo) : List StockInfo → List StockInfo
  | [] => [x]
  | y :: ys =>
      if y.name.length < x.name.length then x :: y :: ys
      else y :: insertByLen x ys

/-- Python's `sorted(stock_list, key=lambda x: len(x['name']), reverse=True)`:
stable, descending by name length. -/
def sortStocks (l : List StockInfo) : List StockInfo :=
  l.foldl (fun acc x => insertByLen x acc) []

/-- The matching phase of `extract_stock_names` (src/stock_matcher.py lines
106-132): scan each registry entry, longest name first, threading the
covered-position set and the accepted-match list, both starting empty in each
call. -/
def extractMatches (text : List Char) (stockList : List StockInfo) :
    Finset ℕ × List TBMatch :=
  (sortStocks stockList).foldl (fun st info => scanName text info st.1 st.2 0) (∅, [])

/-- The deduplication phase of `extract_stock_names` (src/stock_matcher.py
lines 134-140): keep the first occurrence of each ticker, preserving order. -/
def dedupeByTicker : List StockInfo → List String → List StockInfo
  | [], _ => []
  | s :: rest, seen =>
      if s.ticker ∈ seen then dedupeByTicker rest seen
      else s :: dedupeByTicker rest (s.ticker :: seen)

/-- `extract_stock_names` (src/stock_matcher.py lines 87-145): longest-match-
first scan with non-overlapping spans, then deduplication by ticker. -/
def extract_stock_names (text : List Char) (stockList : List StockInfo) :
    List StockInfo :=
  dedupeByTicker ((extractMatches text stockList).2.map TBMatch.info) []

/-! ## Registry model (src/stock_matcher.py lines 13-84, 148-165)

The two external providers are modelled by their observable outcomes.  Python
exceptions may be raised part-way through the append loops, in which case the
rows appended before the exception remain in `all_stocks`; the `err`
constructors therefore carry those already-appended rows. -/

/-- Outcome of the FinanceDataReader attempt (src/stock_matcher.py lines
25-52): either the listing iteration completes with the fetched rows, or an
exception is raised after some rows were already appended. -/
inductive PrimaryOutcome where
  | ok (rows : List StockInfo)
  | err (rowsBefore : List StockInfo)
deriving DecidableEq

/-- Outcome of the pykrx attempt (src/stock_matcher.py lines 55-82): either
both ticker lists are fetched as (ticker, name) pairs, or an exception is
raised (possibly mid-loop) after some stocks were already appended. -/
inductive SecondaryOutcome where
  | ok (kospi kosdaq : List (String × List Char))
  | err (stocksBefore : List StockInfo)
deriving DecidableEq

/-- The pykrx fallback block of `get_all_listed_stocks` (src/stock_matcher.py
lines 54-84) acting on the rows `acc` accumulated so far: on success with both
ticker lists nonempty, append all their stocks and return; with an empty list
the guard fails and the accumulated rows are returned unchanged; on an
exception, return the accumulated rows plus whatever was appended before it. -/
def secondaryStep (acc : List StockInfo) : SecondaryOutcome → List StockInfo
  | .ok kospi kosdaq =>
      if kospi.isEmpty || kosdaq.isEmpty then acc
      else
        acc ++ kospi.map (fun p => ⟨p.2, p.1, "KOSPI"⟩)
            ++ kosdaq.map (fun p => ⟨p.2, p.1, "KOSDAQ"⟩)
  | .err stocksBefore => acc ++ stocksBefore

/-- `get_all_listed_stocks` (src/stock_matcher.py lines 13-84): try
FinanceDataReader first, keeping only KOSPI/KOSDAQ rows, and return them if
any; on a primary exception or an empty primary result, run the pykrx
fallback on the rows accumulated so far; the final `return all_stocks` never
raises. -/
def get_all_listed_stocks (prim : PrimaryOutcome) (sec : SecondaryOutcome) :
    List StockInfo :=
  match prim with
  | .ok rows =>
      let fetched := rows.filter fun r => r.market == "KOSPI" || r.market == "KOSDAQ"
      if fetched.isEmpty then secondaryStep fetched sec else fetched
  | .err rowsBefore => secondaryStep rowsBefore sec

/-- The module-level mutable state of src/stock_matcher.py: the global
`_stock_list_cache` (line 149), `None` until the first
`get_stock_list_cached` call. -/
structure ProcState where
  stockListCache : Option (List StockInfo)
deriving DecidableEq

/-- `get_stock_list_cached` (src/stock_matcher.py lines 152-165) as explicit
state passing: when the cache is unset, load via `get_all_listed_stocks`
(whose provider outcomes for this call are the parameters) and store the
result — whatever it is, an empty failure result included; when set, return
the cached list and leave the state alone. -/
def get_stock_list_cached (s : ProcState) (prim : PrimaryOutcome)
    (sec : SecondaryOutcome) : List StockInfo × ProcState :=
  match s.stockListCache with
  | some l => (l, s)
  | none =>
      let loaded := get_all_listed_stocks prim sec
      (loaded, ⟨some loaded⟩)

/-- A call to `extract_stock_names` in the same state-passing style:
the function reads and writes no module-level state (`matched_positions`,
`matched_stocks` and `seen_tickers` in src/stock_matcher.py lines 109-140 are
local variables created afresh in each call), so the embedding returns the
process state unchanged. -/
def callExtract (s : ProcState) (text : List Char) (reg : List StockInfo) :
    List StockInfo × ProcState :=
  (extract_stock_names text reg, s)

/-! ## Concrete instances used by scenario theorems, counterexamples and
witnesses -/

/-- Scenario 1 text of the spec (section 8). -/
def fooText : List Char := "FooCorp Preferred rallies, BarTech also gains".toList

/-- Scenario 1 registry of the spec (section 8): FooCorp/T1,
FooCorp Preferred/T2, BarTech/T3. -/
def fooReg : List StockInfo :=
  [⟨"FooCorp".toList, "T1", "KOSPI"⟩,
   ⟨"FooCorp Preferred".toList, "T2", "KOSPI"⟩,
   ⟨"BarTech".toList, "T3", "KOSDAQ"⟩]

/-- A session-data provider for which every weekday is a trading session and
weekends report no session. -/
def probeAllWeekdays : Int → ProbeResult :=
  fun d => if d % 7 < 5 then .data else .noData

/-- A session-data provider that is entirely unavailable: every probe raises. -/
def errProbe : Int → ProbeResult := fun _ => .error

/-- A sample KOSPI registry row. -/
def sampleStock : StockInfo := ⟨"FooCorp".toList, "T9", "KOSPI"⟩

/-! ## Helper lemmas -/

/-- Bounds delivered by a successful `findFromAux`: the found position is at
or after `start` and the pattern fits inside the text there. -/
theorem findFromAux_bounds {text pat : List Char} {fuel start pos : Nat}
    (h : findFromAux text pat start fuel = some pos) :
    start ≤ pos ∧ pos + pat.length ≤ text.length := by
  induction fuel generalizing start with
  | zero => simp [findFromAux] at h
  | succ n ih =>
      rw [findFromAux] at h
      split at h
      · exact absurd h (by simp)
      · split at h
        · cases h
          omega
        · have := ih h
          omega

/-- Bounds delivered by a successful `findFrom`. -/
theorem findFrom_bounds {text pat : List Char} {start pos : Nat}
    (h : findFrom text pat start = some pos) :
    start ≤ pos ∧ pos + pat.length ≤ text.length :=
  findFromAux_bounds h

/-- With `start` beyond the text, `findFrom` finds nothing (the fuel is 0 and
indeed no occurrence fits there). -/
theorem findFrom_none_of_le {text pat : List Char} {start : Nat}
    (h : text.length + 1 ≤ start) : findFrom text pat start = none := by
  rw [findFrom]
  have : text.length + 1 - start = 0 := by omega
  rw [this]
  rfl

/-- The fuel of `scanNameAux` is irrelevant as soon as it covers the number of
remaining candidate positions: the loop always terminates by running out of
occurrences, so `scanName`'s fuel choice is faithful to the unbounded Python
`while True` loop. -/
theorem scanNameAux_fuel_irrelevant {text : List Char} {info : StockInfo} :
    ∀ {f1 f2 : Nat} (covered : Finset ℕ) (acc : List TBMatch) (s : Nat),
      text.length + 1 - s ≤ f1 → text.length + 1 - s ≤ f2 →
      scanNameAux text info f1 covered acc s = scanNameAux text info f2 covered acc s := by
  intro f1
  induction f1 with
  | zero =>
      intro f2 covered acc s h1 h2
      cases f2 with
      | zero => rfl
      | succ m =>
          rw [scanNameAux, scanNameAux, findFrom_none_of_le (by omega)]
  | succ n ih =>
      intro f2 covered acc s h1 h2
      cases f2 with
      | zero =>
          rw [scanNameAux, scanNameAux, findFrom_none_of_le (by omega)]
      | succ m =>
          rw [scanNameAux, scanNameAux]
          cases hf : findFrom text info.name s with
          | none => rfl
          | some pos =>
              have hb := findFrom_bounds hf
              simp only
              split
              · exact ih _ _ _ (by omega) (by omega)
              · exact ih _ _ _ (by omega) (by omega)

/-- A day returned by the probe loop is at most `base - i`. -/
theorem probeFrom_le {probe : Int → ProbeResult} {base : Int} {i r : Nat} {d : Int}
    (h : probeFrom probe base i r = some d) : d ≤ base - i := by
  induction r generalizing i with
  | zero => simp [probeFrom] at h
  | succ n ih =>
      rw [probeFrom] at h
      split at h
      · have := ih h
        omega
      · cases hp : probe (base - i) <;> rw [hp] at h
        · cases h
          omega
        · have := ih h
          omega
        · have := ih h
          omega

/-- A day returned by the probe loop is a weekday: weekends are skipped before
probing. -/
theorem probeFrom_weekday {probe : Int → ProbeResult} {base : Int} {i r : Nat} {d : Int}
    (h : probeFrom probe base i r = some d) : weekday d < 5 := by
  induction r generalizing i with
  | zero => simp [probeFrom] at h
  | succ n ih =>
      rw [probeFrom] at h
      split at h
      · exact ih h
      · next hw =>
          cases hp : probe (base - i) <;> rw [hp] at h
          · cases h
            omega
          · exact ih h
          · exact ih h

/-- When no probed weekday candidate yields data, the probe loop finds
nothing. -/
theorem probeFrom_none {probe : Int → ProbeResult} {base : Int} {i r : Nat}
    (h : ∀ j : Nat, i ≤ j → j < i + r → weekday (base - j) < 5 →
        probe (base - j) ≠ .data) :
    probeFrom probe base i r = none := by
  induction r generalizing i with
  | zero => rfl
  | succ n ih =>
      rw [probeFrom]
      split
      · exact ih fun j h1 h2 h3 => h j (by omega) (by omega) h3
      · next hw =>
          cases hp : probe (base - i)
          · exact absurd hp (h i le_rfl (by omega) (by omega))
          · exact ih fun j h1 h2 h3 => h j (by omega) (by omega) h3
          · exact ih fun j h1 h2 h3 => h j (by omega) (by omega) h3

/-- Closed form of the fallback loop: one step back from Saturday, two from
Sunday, identity on weekdays. -/
theorem fallbackDay_eq (d : Int) :
    fallbackDay d = if d % 7 = 5 then d - 1 else if d % 7 = 6 then d - 2 else d := by
  rcases eq_or_ne (d % 7) 5 with h5 | h5
  · have hw : 5 ≤ weekday d := by simp only [weekday]; omega
    have hw2 : ¬ 5 ≤ weekday (d - 1) := by simp only [weekday]; omega
    rw [fallbackDay, dif_pos hw, fallbackDay, dif_neg hw2, if_pos h5]
  · rcases eq_or_ne (d % 7) 6 with h6 | h6
    · have hw : 5 ≤ weekday d := by simp only [weekday]; omega
      have hw1 : 5 ≤ weekday (d - 1) := by simp only [weekday]; omega
      have hw2 : ¬ 5 ≤ weekday (d - 1 - 1) := by simp only [weekday]; omega
      rw [fallbackDay, dif_pos hw, fallbackDay, dif_pos hw1, fallbackDay, dif_neg hw2,
        if_neg h5, if_pos h6]
      omega
    · have hw : ¬ 5 ≤ weekday d := by simp only [weekday]; omega
      rw [fallbackDay, dif_neg hw, if_neg h5, if_neg h6]

/-- The resolver never returns a day after its base, on the probe path and on
the fallback path alike. -/
theorem get_last_trading_day_le (probe : Int → ProbeResult) (base : Int) :
    get_last_trading_day probe base ≤ base := by
  rw [get_last_trading_day]
  cases hp : probeFrom probe base 0 10 with
  | none =>
      show fallbackDay base ≤ base
      rw [fallbackDay_eq]
      split_ifs <;> omega
  | some d =>
      show d ≤ base
      have := probeFrom_le hp
      omega

/-- The resolver never returns a weekend day, on the probe path and on the
fallback path alike. -/
theorem get_last_trading_day_weekday (probe : Int → ProbeResult) (base : Int) :
    weekday (get_last_trading_day probe base) < 5 := by
  rw [get_last_trading_day]
  cases hp : probeFrom probe base 0 10 with
  | none =>
      show weekday (fallbackDay base) < 5
      rw [fallbackDay_eq]
      simp only [weekday]
      split_ifs <;> omega
  | some d =>
      show weekday d < 5
      exact probeFrom_weekday hp

/-- The anchor of the window calculator is at most the reference day. -/
theorem searchDay_le (base : Instant) : searchDay base ≤ base.day := by
  rw [searchDay]
  split <;> omega

/-- The resolved (and possibly adjusted) trading day of the window calculator
is at most the reference day. -/
theorem resolvedDay_le (probe : Int → ProbeResult) (base : Instant) :
    resolvedDay probe base ≤ base.day := by
  have h1 : get_last_trading_day probe (searchDay base) ≤ searchDay base :=
    get_last_trading_day_le probe (searchDay base)
  have h2 : searchDay base ≤ base.day := searchDay_le base
  simp only [resolvedDay]
  split <;> omega

/-- Pairwise span disjointness of a match list. -/
def SpansDisjoint (l : List TBMatch) : Prop :=
  l.Pairwise fun a b => Disjoint (spanOf a) (spanOf b)

/-- Loop invariant of the scan: every accepted span stays inside the covered
set, and accepted spans are pairwise disjoint.  The acceptance test of
src/stock_matcher.py line 126 preserves both. -/
theorem scanNameAux_invariant (text : List Char) (info : StockInfo) :
    ∀ (fuel : Nat) (covered : Finset ℕ) (acc : List TBMatch) (s : Nat),
      (∀ m ∈ acc, spanOf m ⊆ covered) → SpansDisjoint acc →
      (∀ m ∈ (scanNameAux text info fuel covered acc s).2,
          spanOf m ⊆ (scanNameAux text info fuel covered acc s).1)
      ∧ SpansDisjoint (scanNameAux text info fuel covered acc s).2 := by
  intro fuel
  induction fuel with
  | zero => exact fun covered acc s hsub hdis => ⟨hsub, hdis⟩
  | succ n ih =>
      intro covered acc s hsub hdis
      rw [scanNameAux]
      cases hf : findFrom text info.name s with
      | none => exact ⟨hsub, hdis⟩
      | some pos =>
          simp only
          split
      
          · exact ih covered acc (pos + 1) hsub hdis
          · next hov =>
              have hidis : Disjoint (Finset.Ico pos (pos + info.name.length)) covered := by
                rw [Finset.disjoint_iff_inter_eq_empty]
                exact Finset.not_nonempty_iff_eq_empty.mp hov
              refine ih _ _ (pos + 1) ?_ ?_
              · intro m hm
                rcases List.mem_append.mp hm with hm | hm
                · exact (hsub m hm).trans Finset.subset_union_left
                · rcases List.mem_singleton.mp hm with rfl
                  exact Finset.subset_union_right
              · rw [SpansDisjoint, List.pairwise_append]
                refine ⟨hdis, List.pairwise_singleton _ _, ?_⟩
                intro a ha b hb
                rcases List.mem_singleton.mp hb with rfl
                exact hidis.symm.mono_left (hsub a ha)

/-- The invariant extends over the whole longest-first scan of a registry
list. -/
theorem extractFold_invariant (text : List Char) :
    ∀ (infos : List StockInfo) (st : Finset ℕ × List TBMatch),
      (∀ m ∈ st.2, spanOf m ⊆ st.1) → SpansDisjoint st.2 →
      (∀ m ∈ (infos.foldl (fun st info => scanName text info st.1 st.2 0) st).2,
          spanOf m ⊆ (infos.foldl (fun st info => scanName text info st.1 st.2 0) st).1)
      ∧ SpansDisjoint (infos.foldl (fun st info => scanName text info st.1 st.2 0) st).2 := by
  intro infos
  induction infos with
  | nil => exact fun st h1 h2 => ⟨h1, h2⟩
  | cons a l ih =>
      intro st h1 h2
      rw [List.foldl_cons]
      have h3 := scanNameAux_invariant text a (text.length + 1 - 0) st.1 st.2 0 h1 h2
      exact ih _ h3.1 h3.2

/-! ## Claim theorems -/

/-- C1: for every reference instant (whether passed explicitly as `base_date`
or taken as the current time — both reach the code as some concrete instant,
covered by the universally quantified `base`), the collection window returned
by `get_data_collection_timerange` satisfies `start ≤ end`, and `end` equals
the caller-supplied reference instant. -/
theorem window_start_le_end (probe : Int → ProbeResult) (base : Instant) :
    (get_data_collection_timerange probe base).1.toMin
      ≤ (get_data_collection_timerange probe base).2.toMin
    ∧ (get_data_collection_timerange probe base).2 = base := by
  have h1 : resolvedDay probe base ≤ base.day := resolvedDay_le probe base
  have h2 : get_last_trading_day probe (resolvedDay probe base - 1 - 1)
      ≤ resolvedDay probe base - 1 - 1 :=
    get_last_trading_day_le probe (resolvedDay probe base - 1 - 1)
  have hm : (0 : Int) ≤ (base.mins : Int) := Int.ofNat_nonneg _
  simp only [get_data_collection_timerange, Instant.toMin]
  split
  · next hlt =>
      refine ⟨?_, rfl⟩
      dsimp only
      omega
  · next hge =>
      refine ⟨?_, rfl⟩
      dsimp only
      omega

/-- C4: for every reference date, the day returned by `get_last_trading_day`
is at most the reference date, both when a probe succeeds and when the
weekday-arithmetic fallback is taken. -/
theorem last_trading_day_le (probe : Int → ProbeResult) (base : Int) :
    get_last_trading_day probe base ≤ base :=
  get_last_trading_day_le probe base

/-- C10: for every input date, the day returned by `get_last_trading_day` has
weekday index Monday (0) through Friday (4), never Saturday (5) or Sunday (6),
on both the probe path (weekends are skipped before probing) and the fallback
path. -/
theorem last_trading_day_is_weekday (probe : Int → ProbeResult) (base : Int) :
    0 ≤ weekday (get_last_trading_day probe base)
    ∧ weekday (get_last_trading_day probe base) < 5 :=
  ⟨Int.emod_nonneg _ (by norm_num), get_last_trading_day_weekday probe base⟩

/-- C6: when every probed weekday candidate in the 10-day lookback fails with
an exception, `get_last_trading_day` still returns (it never raises — the
embedding is a total function), and its result is the most recent day at or
before the reference date whose weekday is Monday through Friday: it is at
most the base, it is a weekday, and every later day up to the base is a
weekend day. -/
theorem degraded_fallback_weekday (probe : Int → ProbeResult) (base : Int)
    (h : ∀ i : Nat, i < 10 → weekday (base - i) < 5 → probe (base - i) = .error) :
    get_last_trading_day probe base ≤ base
    ∧ weekday (get_last_trading_day probe base) < 5
    ∧ ∀ e : Int, get_last_trading_day probe base < e → e ≤ base → 5 ≤ weekday e := by
  have hnone : probeFrom probe base 0 10 = none := by
    refine probeFrom_none fun j h1 h2 h3 => ?_
    rw [h j (by omega) h3]
    exact fun hc => ProbeResult.noConfusion hc
  rw [get_last_trading_day, hnone]
  show fallbackDay base ≤ base ∧ _ ∧ _
  rw [fallbackDay_eq]
  simp only [weekday]
  split_ifs with h5 h6
  · exact ⟨by omega, by omega, fun e he1 he2 => by omega⟩
  · exact ⟨by omega, by omega, fun e he1 he2 => by omega⟩
  · exact ⟨by omega, by omega, fun e he1 he2 => by omega⟩

/-- Witness for C6 at a concrete input: reference day 6 (a Sunday) with a
fully unavailable provider resolves to day 4 (Friday). -/
theorem degraded_fallback_weekday_witness :
    (∀ i : Nat, i < 10 → weekday ((6 : Int) - i) < 5 → errProbe ((6 : Int) - i) = .error)
    ∧ (get_last_trading_day errProbe 6 ≤ 6
       ∧ weekday (get_last_trading_day errProbe 6) < 5
       ∧ ∀ e : Int, get_last_trading_day errProbe 6 < e → e ≤ 6 → 5 ≤ weekday e) :=
  ⟨fun _ _ _ => rfl, degraded_fallback_weekday errProbe 6 (fun _ _ _ => rfl)⟩

/-- C2: on the Scenario 1 text with the registry {FooCorp/T1,
FooCorp Preferred/T2, BarTech/T3}, `extract_stock_names` returns exactly the
T2 and T3 entries in that order, and no returned entry carries ticker T1:
the only occurrence of "FooCorp" overlaps the span already accepted for the
longer "FooCorp Preferred". -/
theorem scenario_longest_match_first :
    extract_stock_names fooText fooReg
      = [⟨"FooCorp Preferred".toList, "T2", "KOSPI"⟩,
         ⟨"BarTech".toList, "T3", "KOSDAQ"⟩]
    ∧ ∀ s ∈ extract_stock_names fooText fooReg, s.ticker ≠ "T1" := by
  decide

/-- C5: for every text and registry snapshot, the occurrences accepted inside
one `extract_stock_names` call (the match list built by `extractMatches`,
from which the returned stock list is read off) have pairwise disjoint
character spans. -/
theorem extract_spans_pairwise_disjoint (text : List Char) (reg : List StockInfo) :
    SpansDisjoint (extractMatches text reg).2 :=
  (extractFold_invariant text (sortStocks reg) (∅, [])
    (fun m hm => absurd hm (List.not_mem_nil m)) List.Pairwise.nil).2

/-- C3 counterexample: with every weekday a trading session, reference
instant day 1 (a Tuesday) at 09:30 resolves the trading day to day 1, whose
close 16:00 exceeds the reference instant; the claim then predicts the final
start to be the close of the trading day immediately preceding day 1, namely
day 0 (Monday, a session day of this provider, as the second conjunct
records), at 16:00.  The code instead re-resolves from day `1 - 2` (a
Sunday), lands on day `-3` (the previous Friday), and returns Friday 16:00,
skipping Monday entirely. -/
theorem window_retry_skips_monday :
    (get_data_collection_timerange probeAllWeekdays ⟨1, 570⟩).1 = ⟨-3, 960⟩
    ∧ probeAllWeekdays 0 = .data
    ∧ get_last_trading_day probeAllWeekdays 1 = 1
    ∧ resolvedDay probeAllWeekdays ⟨1, 570⟩ = 1
    ∧ ((⟨-3, 960⟩ : Instant) ≠ ⟨0, 960⟩) := by
  decide

/-- C3 as amended: whenever the computed start (resolved trading day at
16:00) exceeds the reference instant, the calculator performs a single
re-resolution — not an iterated one, and not from "anchor minus one day" —
starting two calendar days before the resolved trading day, and the final
start is that re-resolved day's close at 16:00, which lies at or before the
reference instant. -/
theorem window_retry_two_days_back (probe : Int → ProbeResult) (base : Instant)
    (h : base.toMin < resolvedDay probe base * 1440 + 960) :
    (get_data_collection_timerange probe base).1
      = ⟨get_last_trading_day probe (resolvedDay probe base - 1 - 1), 960⟩
    ∧ (get_data_collection_timerange probe base).1.toMin ≤ base.toMin := by
  have h1 : resolvedDay probe base ≤ base.day := resolvedDay_le probe base
  have h2 : get_last_trading_day probe (resolvedDay probe base - 1 - 1)
      ≤ resolvedDay probe base - 1 - 1 :=
    get_last_trading_day_le probe (resolvedDay probe base - 1 - 1)
  have hm : (0 : Int) ≤ (base.mins : Int) := Int.ofNat_nonneg _
  have hc : base.toMin < (⟨resolvedDay probe base, 960⟩ : Instant).toMin := by
    simp only [Instant.toMin] at h ⊢
    omega
  simp only [get_data_collection_timerange]
  rw [if_pos hc]
  refine ⟨rfl, ?_⟩
  simp only [Instant.toMin] at h ⊢
  omega

/-- Witness for the amended C3 at the counterexample input: the retry
condition holds at day 1, 09:30 with the all-weekdays provider, and the
conclusion follows by the theorem. -/
theorem window_retry_two_days_back_witness :
    ((⟨1, 570⟩ : Instant).toMin
        < resolvedDay probeAllWeekdays ⟨1, 570⟩ * 1440 + 960)
    ∧ ((get_data_collection_timerange probeAllWeekdays ⟨1, 570⟩).1
        = ⟨get_last_trading_day probeAllWeekdays
            (resolvedDay probeAllWeekdays ⟨1, 570⟩ - 1 - 1), 960⟩
       ∧ (get_data_collection_timerange probeAllWeekdays ⟨1, 570⟩).1.toMin
          ≤ (⟨1, 570⟩ : Instant).toMin) :=
  ⟨by decide, window_retry_two_days_back probeAllWeekdays ⟨1, 570⟩ (by decide)⟩

/-- C7 counterexample: a primary attempt that raises after one KOSPI row was
already appended, followed by a secondary attempt that raises before
appending anything, makes both sources fail yet returns that one row — not an
empty snapshot. -/
theorem both_sources_fail_nonempty :
    get_all_listed_stocks (.err [sampleStock]) (.err []) = [sampleStock]
    ∧ [sampleStock] ≠ ([] : List StockInfo) := by
  decide

/-- C7 as amended: the loader tries the primary source first and returns its
(nonempty, filtered) rows without consulting the secondary outcome; on any
primary failure — an exception or an empty result — it runs the secondary
attempt; and when both sources fail it returns, without raising (the
embedding is total), the rows accumulated before the two failures, which is
the empty snapshot exactly when both failures struck before any row was
appended. -/
theorem registry_fallback_chain :
    (∀ (rows : List StockInfo) (sec : SecondaryOutcome),
        (rows.filter fun r => r.market == "KOSPI" || r.market == "KOSDAQ") ≠ [] →
        get_all_listed_stocks (.ok rows) sec
          = rows.filter fun r => r.market == "KOSPI" || r.market == "KOSDAQ")
    ∧ (∀ (rows : List StockInfo) (sec : SecondaryOutcome),
        (rows.filter fun r => r.market == "KOSPI" || r.market == "KOSDAQ") = [] →
        get_all_listed_stocks (.ok rows) sec = secondaryStep [] sec)
    ∧ (∀ pp sp : List StockInfo,
        get_all_listed_stocks (.err pp) (.err sp) = pp ++ sp)
    ∧ get_all_listed_stocks (.err []) (.err []) = [] := by
  refine ⟨?_, ?_, fun pp sp => rfl, rfl⟩
  · intro rows sec h
    simp only [get_all_listed_stocks]
    rw [if_neg]
    simp only [List.isEmpty_iff]
    exact h
  · intro rows sec h
    simp only [get_all_listed_stocks]
    rw [h]
    rfl

/-- Witness for the amended C7: a successful primary load with one KOSPI row
returns exactly that row, whatever the secondary outcome would have been. -/
theorem registry_fallback_chain_witness :
    (([sampleStock].filter fun r => r.market == "KOSPI" || r.market == "KOSDAQ") ≠ [])
    ∧ get_all_listed_stocks (.ok [sampleStock]) (.err [])
        = [sampleStock].filter fun r => r.market == "KOSPI" || r.market == "KOSDAQ" :=
  ⟨by decide, registry_fallback_chain.1 [sampleStock] (.err []) (by decide)⟩

/-- C8 counterexample: a first load in which both providers fail caches the
empty snapshot; a second call whose providers would now succeed (the load
would return the sample row, as the middle conjunct records) still returns
the cached empty snapshot.  A failed first load therefore does permanently
fix the cached value against a later successful load. -/
theorem cache_failed_first_load_sticks :
    (get_stock_list_cached
        (get_stock_list_cached ⟨none⟩ (.err []) (.err [])).2
        (.ok [sampleStock]) (.err [])).1 = []
    ∧ get_all_listed_stocks (.ok [sampleStock]) (.err []) = [sampleStock]
    ∧ ([] : List StockInfo) ≠ [sampleStock] := by
  decide

/-- C8 as amended: the cached accessor is memoized with the FIRST LOAD —
successful or not — winning for the process lifetime: a call with a set cache
returns the cached snapshot and leaves the state unchanged whatever the
current provider outcomes are, and a call with an unset cache stores exactly
what `get_all_listed_stocks` produced, an empty failure result included. -/
theorem cache_first_load_wins (cached : List StockInfo) (prim : PrimaryOutcome)
    (sec : SecondaryOutcome) :
    get_stock_list_cached ⟨some cached⟩ prim sec = (cached, ⟨some cached⟩)
    ∧ get_stock_list_cached ⟨none⟩ prim sec
        = (get_all_listed_stocks prim sec, ⟨some (get_all_listed_stocks prim sec)⟩) :=
  ⟨rfl, rfl⟩

/-- C9: `extract_stock_names` is pure and deterministic.  In the
state-passing embedding of the module (the only module-level mutable state of
src/stock_matcher.py is `_stock_list_cache`, which the function neither reads
nor writes; `matched_positions`, `matched_stocks` and `seen_tickers` are
locals created afresh per call), a call from any process state returns the
value of the pure function `extract_stock_names`, leaves the state unchanged,
and a second call with the identical text and registry returns the identical
ordered list. -/
theorem extract_pure_deterministic (s : ProcState) (text : List Char)
    (reg : List StockInfo) :
    (callExtract s text reg).1 = extract_stock_names text reg
    ∧ (callExtract s text reg).2 = s
    ∧ (callExtract (callExtract s text reg).2 text reg).1
        = (callExtract s text reg).1 :=
  ⟨rfl, rfl, rfl⟩

end TheBeat
